import Mathlib

/-!
Verification of the erc-migration billing engine against its specification.

The Python sources are shallowly embedded: months/years are unbounded
integers (Python `int`), monetary amounts are rationals (Python `Decimal`
and `float` arithmetic is idealized over `ℚ`, with two-decimal
quantization `quantize2` modelling `Decimal.quantize(Decimal("0.01"))`
and `round(x, 2)`, both of which round half to even), spreadsheet lookups
become explicit functions into `Option`, and raised exceptions become
`Option`/`Except` failures.
-/

unseal Rat.mul Nat.gcd Rat.add Rat.sub Rat.inv

/-- `lib.datatypes.MonthYear`: an immutable (month, year) pair.
Python does not constrain the ranges, so both components are integers. -/
structure MonthYear where
  month : ℤ
  year : ℤ
deriving DecidableEq

/-- `MonthYear.previous`: the previous month, wrapping January to December
of the prior year (`if self.month > 1 ... else MonthYear(12, self.year - 1)`). -/
def MonthYear.previous (m : MonthYear) : MonthYear :=
  if 1 < m.month then ⟨m.month - 1, m.year⟩ else ⟨12, m.year - 1⟩

/-- `MonthYear.next`: the next month, wrapping December to January of the
following year (`if self.month < 12 ... else MonthYear(1, self.year + 1)`). -/
def MonthYear.next (m : MonthYear) : MonthYear :=
  if m.month < 12 then ⟨m.month + 1, m.year⟩ else ⟨1, m.year + 1⟩

/-- `MonthYear.__lt__`: Python compares the tuples
`(self.year, self.month) < (other.year, other.month)`, which unfolds to
this disjunction. -/
def MonthYear.lt (a b : MonthYear) : Prop :=
  a.year < b.year ∨ (a.year = b.year ∧ a.month < b.month)

instance : DecidableRel MonthYear.lt := fun a b => by
  unfold MonthYear.lt; exact inferInstance

theorem MonthYear.lt_trans {a b c : MonthYear} (h1 : MonthYear.lt a b)
    (h2 : MonthYear.lt b c) : MonthYear.lt a c := by
  simp only [MonthYear.lt] at *
  omega

theorem MonthYear.previous_lt (m : MonthYear) : MonthYear.lt m.previous m := by
  obtain ⟨mo, yr⟩ := m
  unfold MonthYear.previous
  split
  next h => exact Or.inr ⟨rfl, show mo - 1 < mo by omega⟩
  next h => exact Or.inl (show yr - 1 < yr by omega)

/-- Round a rational to the nearest integer, ties to even: the rounding mode
of Python's `Decimal.quantize` default (`ROUND_HALF_EVEN`) and of `round`. -/
def roundHalfEven (x : ℚ) : ℤ :=
  if Int.fract x < 1/2 then ⌊x⌋
  else if 1/2 < Int.fract x then ⌊x⌋ + 1
  else if ⌊x⌋ % 2 = 0 then ⌊x⌋ else ⌊x⌋ + 1

/-- Two-decimal quantization: `Decimal(x).quantize(Decimal("0.01"))`
and `round(x, 2)`. -/
def quantize2 (x : ℚ) : ℚ :=
  (roundHalfEven (100 * x) : ℚ) / 100

/-- One row of an account-details table
(`lib.detailsfile.AccountDetailsRecord`), restricted to the numeric fields
the engine reads; the (date, service) key is the index of `AccountHistory`. -/
structure DetailsRow where
  accural : ℚ
  reaccural : ℚ
  payment : ℚ
  closing_balance : ℚ
deriving DecidableEq

/-- The (account, service) slice of `AccountDetailsFileSingleton`:
`_get_month_service_row` keyed by date.  `none` models the `NoServiceRow`
exception (zero matching rows). -/
def AccountHistory : Type := MonthYear → Option DetailsRow

/-- `get_service_month_accural`. -/
def getServiceMonthAccural (hist : AccountHistory) (date : MonthYear) : Option ℚ :=
  (hist date).map (·.accural)

/-- `get_service_month_reaccural`. -/
def getServiceMonthReaccural (hist : AccountHistory) (date : MonthYear) : Option ℚ :=
  (hist date).map (·.reaccural)

/-- `get_service_month_payment`. -/
def getServiceMonthPayment (hist : AccountHistory) (date : MonthYear) : Option ℚ :=
  (hist date).map (·.payment)

/-- `get_service_month_closing_balance`. -/
def getServiceMonthClosingBalance (hist : AccountHistory) (date : MonthYear) : Option ℚ :=
  (hist date).map (·.closing_balance)

/-- `get_service_year_accurals`: twelve entries, one per month 1..12,
`0.00` where the lookup raises `NoServiceRow`. -/
def getServiceYearAccurals (hist : AccountHistory) (year : ℤ) : List ℚ :=
  (List.range 12).map fun (i : ℕ) =>
    match hist ⟨(i : ℤ) + 1, year⟩ with
    | some r => r.accural
    | none => 0

/-- The descending scan `for i in range(10, -1, -1)` of
`get_service_closing_month`: the first index `i ≤ hi` (scanning downward)
with a truthy entry yields `i + 1`, else `0`. -/
def lastNonzeroMonth (accurals : List ℚ) : ℕ → ℤ
  | 0 => if accurals.getD 0 0 ≠ 0 then 1 else 0
  | i + 1 => if accurals.getD (i + 1) 0 ≠ 0 then (i : ℤ) + 2 else lastNonzeroMonth accurals i

/-- `get_service_closing_month`: `-1` when December's accrual is truthy,
otherwise the last month (1..11) with a truthy accrual, otherwise `0`. -/
def getServiceClosingMonth (hist : AccountHistory) (year : ℤ) : ℤ :=
  let accurals := getServiceYearAccurals hist year
  if accurals.getD 11 0 ≠ 0 then -1
  else lastNonzeroMonth accurals 10

/-- `lib.reaccural.MAX_DEPTH`: the fixed 36-month lookback bound. -/
def MAX_DEPTH : ℕ := 36

/-- `lib.reaccural.ReaccuralMonthRec`. -/
structure ReaccuralMonthRec where
  date : MonthYear
  sum : ℚ
deriving DecidableEq

/-- Sum of the per-month amounts of a list of reaccural records. -/
def sumAmounts (l : List ReaccuralMonthRec) : ℚ :=
  (l.map (·.sum)).sum

/-- The loop of `Reaccural.try_decompose_to_zero`, walking backward one
month per iteration (a `NoServiceRow` month consumes an iteration via
`continue`), appending each found month's quantized accrual to `rec` (walk
order: most recent first) and stopping with success the first time the
running sum becomes zero.  `none` models falling off the loop. -/
def decomposeToZeroAux (hist : AccountHistory) :
    ℕ → MonthYear → ℚ → List ReaccuralMonthRec → Option (List ReaccuralMonthRec)
  | 0, _, _, _ => none
  | fuel + 1, date, floatingSum, rec =>
    match getServiceMonthAccural hist date.previous with
    | none => decomposeToZeroAux hist fuel date.previous floatingSum rec
    | some a =>
      let prevAccural := quantize2 a
      let rec2 := rec ++ [⟨date.previous, prevAccural⟩]
      let floatingSum2 := floatingSum + prevAccural
      if floatingSum2 = 0 then some rec2
      else decomposeToZeroAux hist fuel date.previous floatingSum2 rec2

/-- `Reaccural.try_decompose_to_zero`: on success the accumulated records
are reversed (`rec[::-1]`, oldest first). -/
def tryDecomposeToZero (hist : AccountHistory) (date : MonthYear) (totalsum : ℚ) :
    Option (List ReaccuralMonthRec) :=
  (decomposeToZeroAux hist MAX_DEPTH date totalsum []).map List.reverse

/-- The loop of `Reaccural.try_decompose_to_previous_accurance`: as in
algorithm A, but each iteration also needs the accrual of the month before
the visited one (`NoServiceRow` on either lookup skips the whole
iteration), and the loop stops the first time `|runningSum|` is less than
that earlier month's accrual, appending a final record holding
`|runningSum|` for it. -/
def decomposeToPrevAux (hist : AccountHistory) :
    ℕ → MonthYear → ℚ → List ReaccuralMonthRec → Option (List ReaccuralMonthRec)
  | 0, _, _, _ => none
  | fuel + 1, date, floatingSum, rec =>
    match getServiceMonthAccural hist date.previous,
        getServiceMonthAccural hist date.previous.previous with
    | some a, some b =>
      let prevAccural := quantize2 a
      let secondPrevAccural := quantize2 b
      let rec2 := rec ++ [⟨date.previous, prevAccural⟩]
      let floatingSum2 := floatingSum + prevAccural
      if |floatingSum2| < secondPrevAccural then
        some (rec2 ++ [⟨date.previous.previous, |floatingSum2|⟩])
      else decomposeToPrevAux hist fuel date.previous floatingSum2 rec2
    | _, _ => decomposeToPrevAux hist fuel date.previous floatingSum rec

/-- `Reaccural.try_decompose_to_previous_accurance` (records reversed on
success, oldest first). -/
def tryDecomposeToPrev (hist : AccountHistory) (date : MonthYear) (totalsum : ℚ) :
    Option (List ReaccuralMonthRec) :=
  (decomposeToPrevAux hist MAX_DEPTH date totalsum []).map List.reverse

/-- `Reaccural._change_records_sign`: if the quantized total is negative,
flip the sign of every produced amount. -/
def changeRecordsSign (totalsum : ℚ) (rec : List ReaccuralMonthRec) :
    List ReaccuralMonthRec :=
  if totalsum < 0 then rec.map (fun r => ⟨r.date, -r.sum⟩) else rec

/-- The observable outcome of `Reaccural.__init__`. -/
structure ReaccuralResult where
  records : List ReaccuralMonthRec
  valid : Bool
  totalsum : ℚ
deriving DecidableEq

/-- `Reaccural.__init__`: quantize the total, try algorithm A; on failure
try algorithm B, but only when the next month's accrual is zero or missing
(a closed account); if neither succeeds, fall back to a single record at
the reaccural date holding the raw input sum, flagged invalid. -/
def reaccuralInit (hist : AccountHistory) (reaccuralDate : MonthYear)
    (reaccuralSum : ℚ) : ReaccuralResult :=
  let totalsum := quantize2 reaccuralSum
  match tryDecomposeToZero hist reaccuralDate totalsum with
  | some rec => ⟨changeRecordsSign totalsum rec, true, totalsum⟩
  | none =>
    let bResult :=
      match getServiceMonthAccural hist reaccuralDate.next with
      | some nextMonthAccural =>
        if nextMonthAccural = 0 then tryDecomposeToPrev hist reaccuralDate totalsum
        else none
      | none => tryDecomposeToPrev hist reaccuralDate totalsum
    match bResult with
    | some rec => ⟨changeRecordsSign totalsum rec, true, totalsum⟩
    | none => ⟨[⟨reaccuralDate, reaccuralSum⟩], false, totalsum⟩

/-- `lib.buildingsfile.BuildingRecord`, restricted to the tariff fields
`get_tariff` reads (the address/flag columns live in the lookup key or are
unused here).  All three values are quantized to two decimals on load
(`__post_init__`). -/
structure BuildingRecord where
  tariff_first : ℚ
  tariff_second : ℚ
  coefficient : ℚ
deriving DecidableEq

/-- `lib.buildingsfile.BuildingsFile`: `get_address_row` (regex parsing,
sheet filtering and the first-of-many warning are spreadsheet plumbing)
becomes a lookup from (address, sheet year); `none` models `NoAddressRow`.
`tariff_special` is the period-keyed override table parsed from config. -/
structure BuildingsFile where
  getAddressRow : String → ℤ → Option BuildingRecord
  tariffSpecial : MonthYear → Option ℚ

/-- `BuildingsFile.get_tariff`: resolve the building record for the date's
year, pick `tariff_first` before July and `tariff_second` from July on;
a special-tariff entry for exactly this date wins outright; otherwise the
coefficient multiplies only when `use_reduction_factor` is requested. -/
def getTariff (b : BuildingsFile) (address : String) (date : MonthYear)
    (useReductionFactor : Bool) : Option ℚ :=
  match b.getAddressRow address date.year with
  | none => none
  | some row =>
    let tariff := if date.month < 7 then row.tariff_first else row.tariff_second
    match b.tariffSpecial date with
    | some v => some v
    | none => some (if useReductionFactor then tariff * row.coefficient else tariff)

/-- One step of `HeatingCorrectionResultRow.__init__`'s accrual
computation: the unrounded accrual is `volume * tariff - correction_sum`;
the fraction lost to two-decimal rounding joins the carried accumulator
(`HeatingCorrectionResultRow.rounding_error[0]`), and once the
accumulator's magnitude reaches half a cent the accumulator's own
two-decimal rounding is folded into this row's accrual and subtracted from
the accumulator.  Returns (row accrual, new accumulator). -/
def heatingCorrectionAccrual (roundingError : ℚ) (correctionSum correctionVolume price : ℚ) :
    ℚ × ℚ :=
  let accuralSum := correctionVolume * price - correctionSum
  let accuralSumRounded := quantize2 accuralSum
  let err := roundingError + (accuralSum - accuralSumRounded)
  if 1/200 ≤ |err| then
    let signedPenny := quantize2 err
    (accuralSumRounded + signedPenny, err - signedPenny)
  else (accuralSumRounded, err)

/-- The inputs of one `HeatingCorrectionResultRow` construction; the
account identifies whose correction row it is (the accumulator itself is
a class attribute, shared process-wide). -/
structure CorrectionInput where
  account : String
  correctionSum : ℚ
  correctionVolume : ℚ
  price : ℚ
deriving DecidableEq

/-- A sequence of `HeatingCorrectionResultRow` constructions: the
class-level accumulator threads through every construction in program
order, never resetting between accounts.  Returns the accruals and the
final accumulator. -/
def heatingCorrectionRun (inputs : List CorrectionInput) (err0 : ℚ) : List ℚ × ℚ :=
  match inputs with
  | [] => ([], err0)
  | i :: rest =>
    let step := heatingCorrectionAccrual err0 i.correctionSum i.correctionVolume i.price
    let tail := heatingCorrectionRun rest step.2
    (step.1 :: tail.1, tail.2)

/-- One row emitted by `RegionDir._add_future_installment_records`.
`isExcess = false` maps to `HeatingPositiveCorrectionResultRow`
(`corrMonth` = field 6, `futureInstallment` = field 39,
`totalClosingBalance` = field 45, `totalFutureInstallment` = field 46);
`isExcess = true` maps to
`HeatingPositiveCorrectionExcessiveReaccuralResultRow`, whose `amount`
fills fields 24/25/36/37 and which leaves fields 39/45/46 unset. -/
structure PosCorrRow where
  isExcess : Bool
  corrMonth : ℤ
  futureInstallment : Option ℚ
  totalClosingBalance : Option ℚ
  totalFutureInstallment : Option ℚ
  amount : Option ℚ
deriving DecidableEq

/-- The rows emitted at `month_num == account_closing_month`: the closing
row dated one month after closure with the full (re-quantized) year
correction as closing balance and a zero future installment; then, when
the next month still has a reaccural row, the excess
`next reaccural - last total_future_installment` produces one more row if
nonzero (a missing next-month row just ends the walk). -/
def positiveCorrectionClosingRows (reacc : ℤ → Option ℚ) (yearCorrection : ℚ)
    (m : ℤ) (lastTotalFutureInstallment : ℚ) : List PosCorrRow :=
  let closingRow : PosCorrRow :=
    ⟨false, m + 1, none, some (quantize2 yearCorrection), some 0, none⟩
  match reacc (m + 1) with
  | none => [closingRow]
  | some nxt =>
    let excessiveReaccural := quantize2 nxt - lastTotalFutureInstallment
    if excessiveReaccural = 0 then [closingRow]
    else [closingRow, ⟨true, m, none, none, none, some excessiveReaccural⟩]

/-- The `for month_num in range(..., 13)` walk of
`_add_future_installment_records` after its first iteration: each month
adds its quantized reaccural to the running closing balance and subtracts
it from the running future installment, emits a row, and on reaching the
account's closing month emits the closing rows and stops.  `none` models
the uncaught `NoServiceRow` of the per-month reaccural lookup. -/
def futureInstallmentAux (reacc : ℤ → Option ℚ) (closingMonth : ℤ) (yearCorrection : ℚ) :
    ℕ → ℤ → ℚ → ℚ → Option (List PosCorrRow)
  | 0, _, _, _ => some []
  | fuel + 1, m, totalClosingBalance, totalFutureInstallment =>
    match reacc m with
    | none => none
    | some r0 =>
      let r := quantize2 r0
      let tcb := totalClosingBalance + r
      let tfi := totalFutureInstallment - r
      let row : PosCorrRow := ⟨false, m, none, some tcb, some tfi, none⟩
      if m = closingMonth then
        some (row :: positiveCorrectionClosingRows reacc yearCorrection m tfi)
      else
        (futureInstallmentAux reacc closingMonth yearCorrection fuel (m + 1) tcb tfi).map
          (row :: ·)

/-- `RegionDir._add_future_installment_records`.  `closingMonth` is
`get_service_closing_month(current_year, service)`, used both for the
`HeatingPositiveCorrection` status flags and as `account_closing_month`;
`osvMonth` is the trigger (correction) month; `reacc k` is the account's
reaccural row for month `k` of the current year.  When
`CLOSED_LAST_YEAR` is in the computed status (closed both years, or
closed in the current year at or before the trigger month) a single
collapsed row is emitted; otherwise the month-by-month walk runs from the
trigger month through December. -/
def addFutureInstallmentRecords (reacc : ℤ → Option ℚ) (closingMonth : ℤ)
    (osvMonth : ℤ) (yearCorrection : ℚ) : Option (List PosCorrRow) :=
  let closedLastYear : Bool :=
    if closingMonth = -1 then false
    else if closingMonth = 0 then true
    else decide (closingMonth ≤ osvMonth)
  if closedLastYear then
    some [⟨false, osvMonth, none, some (quantize2 yearCorrection), some 0, none⟩]
  else if 12 < osvMonth then some []
  else
    match reacc osvMonth with
    | none => none
    | some r0 =>
      let r := quantize2 r0
      let futureInstallment := yearCorrection - r
      let row : PosCorrRow := ⟨false, osvMonth, some futureInstallment, some r,
        some futureInstallment, none⟩
      if osvMonth = closingMonth then
        some (row :: positiveCorrectionClosingRows reacc yearCorrection osvMonth
          futureInstallment)
      else
        (futureInstallmentAux reacc closingMonth yearCorrection (12 - osvMonth).toNat
          (osvMonth + 1) r futureInstallment).map (row :: ·)

/-- A value stored in one cell of a 47-field result row: a string, an
integer, or a number.  The 4-decimal comma-separated quantity strings
(`f"{sum/price:.4f}".replace(".", ",")`) are modelled by their numeric
value quantized to four decimals. -/
inductive FieldVal where
  | s (v : String)
  | z (v : ℤ)
  | q (v : ℚ)
deriving DecidableEq

/-- Four-decimal quantization (the `:.4f` format, round half to even). -/
def quantize4 (x : ℚ) : ℚ :=
  (roundHalfEven (10000 * x) : ℚ) / 10000

/-- `lib.resultfile.BaseResultRow`: 47 positional fields `f00`..`f46`,
unset fields are `None`. -/
def RowFields : Type := List (Option FieldVal)

/-- `BaseResultRow.set_field`. -/
def setField (row : RowFields) (i : ℕ) (v : Option FieldVal) : RowFields :=
  List.set row i v

/-- `BaseResultRow.get_field`. -/
def getField (row : RowFields) (i : ℕ) : Option FieldVal :=
  List.getD row i none

/-- Python truthiness of a stored field value (`None`, `0` and `""` are
falsy). -/
def fieldTruthy : Option FieldVal → Bool
  | none => false
  | some (.s v) => decide (v ≠ "")
  | some (.z v) => decide (v ≠ 0)
  | some (.q v) => decide (v ≠ 0)

/-- Python truthiness of an optional number (`None` and `0` are falsy). -/
def truthyQ : Option ℚ → Bool
  | none => false
  | some v => decide (v ≠ 0)

/-- Python truthiness of an optional string (`None` and `""` are falsy). -/
def truthyS : Option String → Bool
  | none => false
  | some v => decide (v ≠ "")

/-- `lib.detailsfile.GvsDetailsRecord`, restricted to the fields the
embedded result-row constructors read (the remaining spreadsheet columns
are never consulted by them).  Each field is optional: an empty cell loads
as `None`. -/
structure GvsDetailsRecord where
  account : String
  people_registered : Option ℤ
  counter_id : Option String
  counter_number : Option String
  metric_date_current : Option String
  metric_current : Option ℚ
  consumption_ipu : Option ℚ
  consumption_normative : Option ℚ
  consumption_average : Option ℚ
deriving DecidableEq

/-- `GvsDetailsRecord.get_dummy_instance`: all attributes `None` (its
`account` is never read by the row constructors, so the placeholder string
is irrelevant). -/
def dummyGvs : GvsDetailsRecord :=
  ⟨"", none, none, none, none, none, none, none, none⟩

/-- The process-wide `lib.resultfile.GvsIpuInstallDates` dict
(account → install date); the stored value itself may be `None`. -/
def InstallMap : Type := String → Option (Option String)

/-- The empty `GvsIpuInstallDates` dict. -/
def emptyInstallMap : InstallMap := fun _ => none

/-- Dict assignment `GvsIpuInstallDates[account] = value`. -/
def installMapSet (m : InstallMap) (k : String) (v : Option String) : InstallMap :=
  fun a => if a = k then some v else m a

/-- `GvsIpuInstallDates.get(account, "01.01.2019")`. -/
def installDatesGetD (m : InstallMap) (k : String) : Option String :=
  match m k with
  | some v => v
  | none => some "01.01.2019"

/-- `GvsSingleResultRow._get_new_counter_number` applied as in
`if not gvs.counter_number: gvs.counter_number = f"{gvs.counter_id}_2"`
(a `None` counter id renders as the string `"None"` in the f-string). -/
def fixedCounterNumber (gvs : GvsDetailsRecord) : Option String :=
  if truthyS gvs.counter_number then gvs.counter_number
  else some ((match gvs.counter_id with | some cid => cid | none => "None") ++ "_2")

/-- Zero-pad an integer to two digits (`f"{n:02d}"`). -/
def pad2 (n : ℤ) : String :=
  if 0 ≤ n ∧ n < 10 then "0" ++ toString n else toString n

/-- The `f"20.{date.month:02d}.{date.year}"` payment-date string. -/
def paymentDateStr (date : MonthYear) : String :=
  "20." ++ pad2 date.month ++ "." ++ toString date.year

/-- `BaseResultRow.__init__` after the tariff has been resolved to
`price`: all 47 fields `None`, then month/year/account/address, the
duplicate month/year pair at fields 6/7, and the tariff at field 8. -/
def baseResultRow (date : MonthYear) (account address : String) (price : ℚ) : RowFields :=
  let row : RowFields := List.replicate 47 none
  let row := setField row 0 (some (.z date.month))
  let row := setField row 1 (some (.z date.year))
  let row := setField row 2 (some (.s account))
  let row := setField row 3 (some (.s address))
  let row := setField row 6 (some (.z date.month))
  let row := setField row 7 (some (.z date.year))
  setField row 8 (some (.q price))

/-- `lib.resultfile.GvsSingleResultRow.__init__`.  `gvsSum` is
`accural.gvs`; `none` models an uncaught `NoAddressRow` from the tariff
lookup or the `ZeroDivisionError` a zero tariff would raise in the
quantity computation.  Returns the row together with the resolved
`self.price`. -/
def gvsSingleResultRow (buildings : BuildingsFile) (installMap : InstallMap)
    (date : MonthYear) (account address : String) (gvsSum : ℚ)
    (hist : AccountHistory) (gvs : GvsDetailsRecord) (service : String) :
    Option (RowFields × ℚ) :=
  match getTariff buildings address date true with
  | none => none
  | some price =>
    if price = 0 then none
    else
      let row := baseResultRow date account address price
      let row := setField row 4 (some (.s "GVS_ACCURAL"))
      let row := setField row 5 (some (.s service))
      let row :=
        if truthyS gvs.counter_id || truthyS gvs.counter_number then
          let row := setField row 9 (some (.s "Индивидуальный"))
          let row := setField row 10 ((installDatesGetD installMap account).map .s)
          let row := setField row 13 (some (.s "СГВ-15"))
          let row := setField row 14 ((fixedCounterNumber gvs).map .s)
          let row := setField row 15 (some (.z 6))
          let row := setField row 16 (some (.z 3))
          let row :=
            if gvs.metric_current.isSome then
              let row := setField row 19 (gvs.metric_date_current.map .s)
              let row := setField row 20 (some (.s "От абонента (прочие)"))
              setField row 21 (gvs.metric_current.map .q)
            else row
          setField row 22 (gvs.consumption_ipu.map .q)
        else row
      let quantity : FieldVal := .q (quantize4 (gvsSum / price))
      let row :=
        if truthyQ gvs.consumption_ipu then
          let row := setField row 23 (some quantity)
          let row := setField row 24 (some (.q gvsSum))
          setField row 25 (some (.q gvsSum))
        else row
      let row :=
        if truthyQ gvs.consumption_average then
          let row := setField row 26 (some quantity)
          let row := setField row 27 (some (.q gvsSum))
          setField row 28 (some (.q gvsSum))
        else row
      let row :=
        if truthyQ gvs.consumption_normative then
          let row := setField row 30 (gvs.people_registered.map .z)
          let row := setField row 31 (some quantity)
          let row := setField row 32 (some (.q gvsSum))
          setField row 33 (some (.q gvsSum))
        else row
      let row := setField row 35 (some quantity)
      let row := setField row 36 (some (.q gvsSum))
      let row := setField row 37 (some (.q gvsSum))
      let paymentSum := (getServiceMonthPayment hist date).getD 0
      let row :=
        if paymentSum ≠ 0 then
          let row := setField row 40 (some (.s (paymentDateStr date)))
          let row := setField row 41 (some (.s (paymentDateStr date)))
          let row := setField row 42 (some (.q paymentSum))
          setField row 43 (some (.s (if 0 ≤ paymentSum then "Оплата" else "Возврат оплаты")))
        else row
      let closingBalance := (getServiceMonthClosingBalance hist date).getD 0
      some (setField row 45 (some (.q closingBalance)), price)

/-- `GvsMultipleResultFirstRow.__init__`: the single-record row, then the
removal-pending flag in field 20 when the current meter reading is
present. -/
def gvsMultipleResultFirstRow (buildings : BuildingsFile) (installMap : InstallMap)
    (date : MonthYear) (account address : String) (gvsSum : ℚ)
    (hist : AccountHistory) (gvs : GvsDetailsRecord) (service : String) :
    Option RowFields :=
  (gvsSingleResultRow buildings installMap date account address gvsSum hist gvs
    service).map fun p =>
      if gvs.metric_current.isSome then
        setField p.1 20 (some (.s "При снятии прибора"))
      else p.1

/-- The `for i in range(23, 46)` loop of `GvsMultipleResultSecondRow`:
clear fields 23..45. -/
def clearFinancialFields (row : RowFields) : RowFields :=
  (List.range 23).foldl (fun r i => setField r (23 + i) none) row

/-- `GvsMultipleResultSecondRow.__init__`: the single-record row, then the
install date copied into field 10, the process-wide
`GvsIpuInstallDates[gvs.account]` update with the new meter's current
metric date, the installation flag in field 20 when the current reading is
present, and fields 23..45 cleared.  Returns the row and the updated
dict. -/
def gvsMultipleResultSecondRow (buildings : BuildingsFile) (installMap : InstallMap)
    (date : MonthYear) (account address : String) (gvsSum : ℚ)
    (hist : AccountHistory) (gvs : GvsDetailsRecord) (service : String) :
    Option (RowFields × InstallMap) :=
  (gvsSingleResultRow buildings installMap date account address gvsSum hist gvs
    service).map fun p =>
      let row := setField p.1 10 (gvs.metric_date_current.map .s)
      let installMap2 := installMapSet installMap gvs.account gvs.metric_date_current
      let row :=
        if gvs.metric_current.isSome then
          setField row 20 (some (.s "При установке"))
        else row
      (clearFinancialFields row, installMap2)

/-- The row-producing part of `RegionDir._process_gvs`: the all-falsy OSV
guard, the trim of more than two meter-detail records to first and last,
and the 0/1/2-record match.  (The separate `_add_initial_balance_row` call
that follows it is governed by the per-account seen-set and emits opening
balance rows, not GVS accrual rows; it is outside this function.)
Returns the appended rows and the possibly updated
`GvsIpuInstallDates`. -/
def processGvsRows (buildings : BuildingsFile) (installMap : InstallMap)
    (date : MonthYear) (account address : String)
    (heating gvsSum reaccural payment : ℚ) (hist : AccountHistory)
    (gvsDetailsRows : List GvsDetailsRecord) (service : String) :
    Option (List RowFields × InstallMap) :=
  if heating = 0 ∧ gvsSum = 0 ∧ reaccural = 0 ∧ payment = 0 then some ([], installMap)
  else
    let rows :=
      if 2 < gvsDetailsRows.length then
        [gvsDetailsRows.headD dummyGvs, gvsDetailsRows.getLastD dummyGvs]
      else gvsDetailsRows
    match rows with
    | [] =>
      let closingBalance := (getServiceMonthClosingBalance hist date).getD 0
      if closingBalance ≠ 0 ∨ payment ≠ 0 then
        (gvsSingleResultRow buildings installMap date account address gvsSum hist
          dummyGvs service).map fun p => ([p.1], installMap)
      else some ([], installMap)
    | [g] =>
      (gvsSingleResultRow buildings installMap date account address gvsSum hist
        g service).map fun p => ([p.1], installMap)
    | g1 :: g2 :: _ =>
      match gvsMultipleResultFirstRow buildings installMap date account address
          gvsSum hist g1 service,
        gvsMultipleResultSecondRow buildings installMap date account address
          gvsSum hist g2 service with
      | some r1, some r2 => some ([r1, r2.1], r2.2)
      | _, _ => none

/-- `lib.resultfile.GvsElevatedResultRow.__init__`: the single-record GVS
row re-labelled, fields 19..22 cleared, the accrual groups recomputed from
the service's own monthly accrual, and the zero-data check at the end.
The outer `Option` models uncaught failures; the inner `Option` is `none`
exactly when `ZeroDataResultRow` is raised. -/
def gvsElevatedResultRow (buildings : BuildingsFile) (installMap : InstallMap)
    (date : MonthYear) (account address : String) (gvsSum : ℚ)
    (hist : AccountHistory) (gvs : GvsDetailsRecord) (service : String) :
    Option (Option RowFields) :=
  (gvsSingleResultRow buildings installMap date account address gvsSum hist gvs
    service).map fun p =>
      let row := p.1
      let price := p.2
      let row := setField row 4 (some (.s "GVS_ELEVATED"))
      let row := setField row 5 (some (.s service))
      let row := setField row 19 none
      let row := setField row 20 none
      let row := setField row 21 none
      let row := setField row 22 none
      let accuralSum := (getServiceMonthAccural hist date).getD 0
      let quantity : FieldVal := .q (quantize4 (accuralSum / price))
      let row :=
        if truthyQ gvs.consumption_ipu then
          let row := setField row 23 (some quantity)
          let row := setField row 24 (some (.q accuralSum))
          setField row 25 (some (.q accuralSum))
        else row
      let row :=
        if truthyQ gvs.consumption_average then
          let row := setField row 26 (some quantity)
          let row := setField row 27 (some (.q accuralSum))
          setField row 28 (some (.q accuralSum))
        else row
      let row :=
        if truthyQ gvs.consumption_normative then
          let row := setField row 30 (gvs.people_registered.map .z)
          let row := setField row 31 (some quantity)
          let row := setField row 32 (some (.q accuralSum))
          setField row 33 (some (.q accuralSum))
        else row
      let row := setField row 35 (some quantity)
      let row := setField row 36 (some (.q accuralSum))
      let row := setField row 37 (some (.q accuralSum))
      if accuralSum ≠ 0 ∨ fieldTruthy (getField row 42) ∨ fieldTruthy (getField row 45)
      then some row
      else none

/-- The row-producing part of `RegionDir._process_gvs_elevated`: no
meter-detail records means no row; a raised `ZeroDataResultRow` (or
`NoServiceRow`) is caught and suppresses the row.  (The trailing
`_add_initial_balance_row` call is outside this function, as in
`processGvsRows`.) -/
def processGvsElevatedRows (buildings : BuildingsFile) (installMap : InstallMap)
    (date : MonthYear) (account address : String) (gvsSum : ℚ)
    (hist : AccountHistory) (gvsDetailsRows : List GvsDetailsRecord)
    (service : String) : Option (List RowFields) :=
  match gvsDetailsRows with
  | [] => some []
  | g :: _ =>
    match gvsElevatedResultRow buildings installMap date account address gvsSum
        hist g service with
    | none => none
    | some none => some []
    | some (some row) => some [row]

/-- `lib.reaccural.ReaccuralType`. -/
inductive ReaccuralType where
  | IPU
  | AVERAGE
  | NORMATIVE
deriving DecidableEq

/-- `Reaccural.init_type`: classify from the first meter-detail row of the
month preceding the reaccural month; default `NORMATIVE` when that file
has no row for the account. -/
def initType (prevGvsRows : List GvsDetailsRecord) : ReaccuralType :=
  match prevGvsRows.head? with
  | none => .NORMATIVE
  | some row =>
    if truthyQ row.consumption_average then .AVERAGE
    else if truthyQ row.consumption_ipu then .IPU
    else .NORMATIVE

/-- `lib.resultfile.GvsReaccuralResultRow.__init__` for one decomposition
record (`recTypeName` is `record_type.name`); `none` models the uncaught
`NoAddressRow`/`ZeroDivisionError`. -/
def gvsReaccuralRow (buildings : BuildingsFile) (installMap : InstallMap)
    (date : MonthYear) (account address : String) (gvs : GvsDetailsRecord)
    (reaccuralDate : MonthYear) (reaccuralSum : ℚ) (rtype : ReaccuralType)
    (service recTypeName : String) : Option RowFields :=
  match getTariff buildings address date true with
  | none => none
  | some price =>
    if price = 0 then none
    else
      let row := baseResultRow date account address price
      let row := setField row 4 (some (.s recTypeName))
      let row := setField row 5 (some (.s service))
      let row := setField row 6 (some (.z reaccuralDate.month))
      let row := setField row 7 (some (.z reaccuralDate.year))
      let row := setField row 8 (some (.q price))
      let row :=
        if truthyS gvs.counter_id || truthyS gvs.counter_number then
          let row := setField row 9 (some (.s "Индивидуальный"))
          let row := setField row 10 ((installDatesGetD installMap account).map .s)
          let row := setField row 13 (some (.s "СГВ-15"))
          let row := setField row 14 ((fixedCounterNumber gvs).map .s)
          let row := setField row 15 (some (.z 6))
          setField row 16 (some (.z 3))
        else row
      let quantity : FieldVal := .q (quantize4 (reaccuralSum / price))
      let row :=
        match rtype with
        | .IPU =>
          let row := setField row 23 (some quantity)
          let row := setField row 24 (some (.q reaccuralSum))
          setField row 25 (some (.q reaccuralSum))
        | .AVERAGE =>
          let row := setField row 26 (some quantity)
          let row := setField row 27 (some (.q reaccuralSum))
          setField row 28 (some (.q reaccuralSum))
        | .NORMATIVE =>
          let row := setField row 31 (some quantity)
          let row := setField row 32 (some (.q reaccuralSum))
          setField row 33 (some (.q reaccuralSum))
      let row := setField row 35 (some quantity)
      let row := setField row 36 (some (.q reaccuralSum))
      setField row 37 (some (.q reaccuralSum))

/-- The field-38 annotation string of `RegionDir._process_gvs_reaccural`. -/
def couldNotDecomposeMarker : String := "Не удалось разложить начисление на месяцы"

/-- The row-producing part of `RegionDir._process_gvs_reaccural`: look up
the month's reaccural (`NoServiceRow` or a falsy sum produces nothing),
decompose it with `Reaccural`, classify with `init_type`, and emit one
`GvsReaccuralResultRow` per decomposition record, annotating every row of
an invalid decomposition with the could-not-decompose marker in
field 38. -/
def processGvsReaccuralRows (buildings : BuildingsFile) (installMap : InstallMap)
    (hist : AccountHistory) (date : MonthYear) (account address : String)
    (gvsDetailsRows prevGvsRows : List GvsDetailsRecord)
    (service recTypeName : String) : Option (List RowFields) :=
  match getServiceMonthReaccural hist date with
  | none => some []
  | some reaccuralSum =>
    if reaccuralSum = 0 then some []
    else
      let gvsRow := gvsDetailsRows.headD dummyGvs
      let rd := reaccuralInit hist date reaccuralSum
      let rtype := initType prevGvsRows
      (rd.records.mapM fun rec =>
        gvsReaccuralRow buildings installMap date account address gvsRow rec.date
          rec.sum rtype service recTypeName).map fun rows =>
        if rd.valid then rows
        else rows.map fun r => setField r 38 (some (.s couldNotDecomposeMarker))

/-- C10: for every `MonthYear` with month in 1..12, `previous` and `next`
are mutually inverse (January wraps to December of the prior year and
December to January of the following year), and the comparison order is
lexicographic on (year, month). -/
theorem claim_C10_monthYear_roundtrip_and_lex_order (m : MonthYear)
    (h1 : 1 ≤ m.month) (h2 : m.month ≤ 12) :
    m.previous.next = m ∧ m.next.previous = m ∧
    (∀ a b : MonthYear, MonthYear.lt a b ↔
      Prod.Lex (· < ·) (· < ·) (a.year, a.month) (b.year, b.month)) := by
  refine ⟨?_, ?_, fun a b => ?_⟩
  · obtain ⟨mo, yr⟩ := m
    simp only [MonthYear.previous, MonthYear.next] at *
    split_ifs <;> simp_all [MonthYear.mk.injEq] <;> omega
  · obtain ⟨mo, yr⟩ := m
    simp only [MonthYear.previous, MonthYear.next] at *
    split_ifs <;> simp_all [MonthYear.mk.injEq] <;> omega
  · rw [Prod.lex_def]
    exact Iff.rfl

/-- Witness for C10 at the concrete month 05.2024. -/
theorem claim_C10_witness :
    (⟨5, 2024⟩ : MonthYear).previous.next = ⟨5, 2024⟩ ∧
    (⟨5, 2024⟩ : MonthYear).next.previous = ⟨5, 2024⟩ :=
  ⟨(claim_C10_monthYear_roundtrip_and_lex_order ⟨5, 2024⟩ (by decide) (by decide)).1,
   (claim_C10_monthYear_roundtrip_and_lex_order ⟨5, 2024⟩ (by decide) (by decide)).2.1⟩

/-- C4: once the building record for the date's year resolves, a
special-tariff entry for exactly that date wins outright; otherwise months
1..6 use `tariff_first` and months 7..12 use `tariff_second`, multiplied
by the coefficient exactly when the reduction factor is requested. -/
theorem claim_C4_getTariff_spec (b : BuildingsFile) (address : String)
    (date : MonthYear) (useRF : Bool) (row : BuildingRecord)
    (hrow : b.getAddressRow address date.year = some row) :
    (∀ v, b.tariffSpecial date = some v →
      getTariff b address date useRF = some v) ∧
    (b.tariffSpecial date = none → 1 ≤ date.month → date.month ≤ 6 →
      getTariff b address date useRF =
        some (if useRF then row.tariff_first * row.coefficient else row.tariff_first)) ∧
    (b.tariffSpecial date = none → 7 ≤ date.month → date.month ≤ 12 →
      getTariff b address date useRF =
        some (if useRF then row.tariff_second * row.coefficient else row.tariff_second)) := by
  unfold getTariff
  rw [hrow]
  refine ⟨fun v hv => by simp [hv], fun hs h1 h6 => ?_, fun hs h7 h12 => ?_⟩
  · rw [hs]
    have hm : date.month < 7 := by omega
    simp [hm]
  · rw [hs]
    have hm : ¬date.month < 7 := by omega
    simp [hm]

/-- A two-year synthetic buildings table used by the witnesses: tariffs
5/7 with coefficient 2, and a special tariff 99 for 01.2024. -/
def buildingsW : BuildingsFile where
  getAddressRow := fun a y =>
    if a = "spec-addr" ∧ (y = 2024 ∨ y = 2023) then some ⟨5, 7, 2⟩ else none
  tariffSpecial := fun d => if d = ⟨1, 2024⟩ then some 99 else none

/-- Witness for C4: the special tariff overrides in January 2024; March
uses the first-season tariff with the reduction factor; August uses the
second-season tariff without it. -/
theorem claim_C4_witness :
    getTariff buildingsW "spec-addr" ⟨1, 2024⟩ false = some 99 ∧
    getTariff buildingsW "spec-addr" ⟨3, 2024⟩ true = some 10 ∧
    getTariff buildingsW "spec-addr" ⟨8, 2024⟩ false = some 7 := by
  have hrow : buildingsW.getAddressRow "spec-addr" (2024 : ℤ) = some ⟨5, 7, 2⟩ := by
    simp [buildingsW]
  refine ⟨?_, ?_, ?_⟩
  · exact (claim_C4_getTariff_spec buildingsW "spec-addr" ⟨1, 2024⟩ false ⟨5, 7, 2⟩
      hrow).1 99 (by simp [buildingsW])
  · have h := (claim_C4_getTariff_spec buildingsW "spec-addr" ⟨3, 2024⟩ true ⟨5, 7, 2⟩
      hrow).2.1 (by simp [buildingsW]) (by decide) (by decide)
    norm_num at h
    exact h
  · have h := (claim_C4_getTariff_spec buildingsW "spec-addr" ⟨8, 2024⟩ false ⟨5, 7, 2⟩
      hrow).2.2 (by simp [buildingsW]) (by decide) (by decide)
    simpa using h

/-- C3: every heating-correction row's accrual is
`volume * tariff - correction_sum` quantized to two decimals; the lost
fraction joins the carried accumulator; once the accumulator's magnitude
reaches half a cent, the accumulator's two-decimal rounding is folded into
the current row's accrual and subtracted from the accumulator.
Concretely, two consecutive rows each losing 0.004 make the accumulator
reach 0.008 ≥ 0.005 on the second row, which then carries exactly one
+0.01 adjustment and leaves the accumulator at -0.002. -/
theorem claim_C3_heating_correction_rounding :
    (∀ err correctionSum correctionVolume price : ℚ,
      let raw := correctionVolume * price - correctionSum
      let acc := err + (raw - quantize2 raw)
      heatingCorrectionAccrual err correctionSum correctionVolume price =
        if 1/200 ≤ |acc| then (quantize2 raw + quantize2 acc, acc - quantize2 acc)
        else (quantize2 raw, acc)) ∧
    heatingCorrectionRun [⟨"a", -1/250, 0, 1⟩, ⟨"a", -1/250, 0, 1⟩] 0 =
      ([0, 1/100], -1/500) := by
  constructor
  · intro err correctionSum correctionVolume price
    simp only [heatingCorrectionAccrual]
  · decide

/-- C9: the `HeatingCorrectionResultRow.rounding_error` accumulator is a
single class-level value threading through every row construction:
(a) after each construction the new accumulator equals the old one plus
the lost fraction (unrounded minus rounded accrual) minus the applied
compensation; (b) running the constructor over any two concatenated input
batches threads the final accumulator of the first batch into the second,
with no reset between them; (c) the step never depends on the account the
row belongs to; (d) concretely, one row of account "account1" leaves
residue 0.004, and the first row of the unrelated "account2" then starts
from it, reaches 0.008 and carries the compensating cent. -/
theorem claim_C9_rounding_error_shared_state :
    (∀ err correctionSum correctionVolume price : ℚ,
      let raw := correctionVolume * price - correctionSum
      (heatingCorrectionAccrual err correctionSum correctionVolume price).2 =
        err + (raw - quantize2 raw)
          - ((heatingCorrectionAccrual err correctionSum correctionVolume price).1
              - quantize2 raw)) ∧
    (∀ (xs ys : List CorrectionInput) (e0 : ℚ),
      heatingCorrectionRun (xs ++ ys) e0 =
        ((heatingCorrectionRun xs e0).1
            ++ (heatingCorrectionRun ys (heatingCorrectionRun xs e0).2).1,
          (heatingCorrectionRun ys (heatingCorrectionRun xs e0).2).2)) ∧
    (∀ (acct1 acct2 : String) (cs cv p e : ℚ),
      heatingCorrectionRun [⟨acct1, cs, cv, p⟩] e =
        heatingCorrectionRun [⟨acct2, cs, cv, p⟩] e) ∧
    heatingCorrectionRun [⟨"account1", -1/250, 0, 1⟩] 0 = ([0], 1/250) ∧
    heatingCorrectionRun [⟨"account2", -1/250, 0, 1⟩] (1/250) = ([1/100], -1/500) := by
  refine ⟨?_, ?_, ?_, by decide, by decide⟩
  · intro err correctionSum correctionVolume price
    simp only [heatingCorrectionAccrual]
    split <;> ring
  · intro xs ys e0
    induction xs generalizing e0 with
    | nil => simp [heatingCorrectionRun]
    | cons x rest ih =>
      simp only [List.cons_append, List.append_eq, heatingCorrectionRun, ih]
  · intro acct1 acct2 cs cv p e
    rfl

theorem yearAccurals_getD (hist : AccountHistory) (year : ℤ) (i : ℕ) (h : i < 12) :
    (getServiceYearAccurals hist year).getD i 0 =
      (match hist ⟨(i : ℤ) + 1, year⟩ with
        | some r => r.accural
        | none => 0) := by
  have hsome : (getServiceYearAccurals hist year)[i]? =
      some (match hist ⟨(i : ℤ) + 1, year⟩ with
        | some r => r.accural
        | none => 0) := by
    rw [getServiceYearAccurals, List.getElem?_map, List.getElem?_range h]
    rfl
  simp [List.getD, hsome]

theorem lastNonzeroMonth_all_zero (a : List ℚ) (hi : ℕ)
    (h : ∀ j : ℕ, j ≤ hi → a.getD j 0 = 0) : lastNonzeroMonth a hi = 0 := by
  induction hi with
  | zero => rw [lastNonzeroMonth, if_neg (by simpa using h 0 le_rfl)]
  | succ n ih =>
    rw [lastNonzeroMonth, if_neg (by simpa using h (n + 1) le_rfl)]
    exact ih fun j hj => h j (by omega)

theorem lastNonzeroMonth_last (a : List ℚ) (k : ℕ) (hk : a.getD k 0 ≠ 0) (hi : ℕ)
    (hki : k ≤ hi) (hz : ∀ j : ℕ, k < j → j ≤ hi → a.getD j 0 = 0) :
    lastNonzeroMonth a hi = (k : ℤ) + 1 := by
  induction hi with
  | zero =>
    have hk0 : k = 0 := by omega
    subst hk0
    rw [lastNonzeroMonth, if_pos hk]
    omega
  | succ n ih =>
    by_cases hEq : k = n + 1
    · subst hEq
      rw [lastNonzeroMonth, if_pos hk]
      omega
    · rw [lastNonzeroMonth, if_neg (by simpa using hz (n + 1) (by omega) le_rfl)]
      exact ih (by omega) fun j h1 h2 => hz j h1 (by omega)

/-- C5: for every account history and year, a missing month row counts as
a zero accrual; a truthy December accrual yields the still-open sentinel
-1; otherwise the result is the last month (index k+1, k ≤ 10) with a
truthy accrual; and when the whole year is zero/absent (the account having
been open in December of the prior year, i.e. fully closed before year
start) the result is 0. -/
theorem claim_C5_closing_month (hist : AccountHistory) (year : ℤ) :
    (∀ i : ℕ, i < 12 → hist ⟨(i : ℤ) + 1, year⟩ = none →
      (getServiceYearAccurals hist year).getD i 0 = 0) ∧
    ((getServiceYearAccurals hist year).getD 11 0 ≠ 0 →
      getServiceClosingMonth hist year = -1) ∧
    (∀ k : ℕ, k < 11 → (getServiceYearAccurals hist year).getD 11 0 = 0 →
      (getServiceYearAccurals hist year).getD k 0 ≠ 0 →
      (∀ j : ℕ, k < j → j < 12 → (getServiceYearAccurals hist year).getD j 0 = 0) →
      getServiceClosingMonth hist year = (k : ℤ) + 1) ∧
    ((∀ j : ℕ, j < 12 → (getServiceYearAccurals hist year).getD j 0 = 0) →
      getServiceMonthAccural hist ⟨12, year - 1⟩ ≠ none →
      getServiceClosingMonth hist year = 0) := by
  refine ⟨fun i hi hnone => ?_, fun hdec => ?_, fun k hk hdec hknz hz => ?_,
    fun hall _ => ?_⟩
  · rw [yearAccurals_getD hist year i hi, hnone]
  · rw [getServiceClosingMonth, if_pos hdec]
  · rw [getServiceClosingMonth, if_neg (by simpa using hdec)]
    exact lastNonzeroMonth_last _ k hknz 10 (by omega)
      fun j h1 h2 => hz j h1 (by omega)
  · rw [getServiceClosingMonth, if_neg (by simpa using hall 11 (by omega))]
    exact lastNonzeroMonth_all_zero _ 10 fun j hj => hall j (by omega)

/-- A synthetic history with a single accrual row in March 2022. -/
def histMar : AccountHistory := fun d =>
  if d = ⟨3, 2022⟩ then some ⟨7, 0, 0, 0⟩ else none

/-- A synthetic history whose only accrual row is December 2022. -/
def histDec : AccountHistory := fun d =>
  if d = ⟨12, 2022⟩ then some ⟨7, 0, 0, 0⟩ else none

/-- A synthetic history closed before 2022: its only row is December
2021. -/
def histPrior : AccountHistory := fun d =>
  if d = ⟨12, 2021⟩ then some ⟨7, 0, 0, 0⟩ else none

/-- Witness for C5: the March-only history closes in month 3, the
December-only history is still open (-1), and the history fully closed
before 2022 gives 0. -/
theorem claim_C5_witness :
    getServiceClosingMonth histMar 2022 = 3 ∧
    getServiceClosingMonth histDec 2022 = -1 ∧
    getServiceClosingMonth histPrior 2022 = 0 := by
  refine ⟨?_, ?_, ?_⟩
  · have h := (claim_C5_closing_month histMar 2022).2.2.1 2 (by omega) (by decide)
      (by decide) (fun j h1 h2 => by interval_cases j <;> decide)
    exact_mod_cast h
  · exact (claim_C5_closing_month histDec 2022).2.1 (by decide)
  · exact (claim_C5_closing_month histPrior 2022).2.2.2
      (fun j hj => by interval_cases j <;> decide) (by decide)

/-- The months visited by a backward walk of `n` iterations starting at
`date`: `date.previous`, `date.previous.previous`, and so on. -/
def walkDates (date : MonthYear) : ℕ → List MonthYear
  | 0 => []
  | n + 1 => date.previous :: walkDates date.previous n

/-- The records algorithm A accumulates over a walk of `n` iterations, in
walk order (most recent month first): one record per visited month with an
accrual row, holding that month's quantized accrual. -/
def walkRecords (hist : AccountHistory) (date : MonthYear) (n : ℕ) :
    List ReaccuralMonthRec :=
  (walkDates date n).filterMap fun d =>
    (getServiceMonthAccural hist d).map fun a => ⟨d, quantize2 a⟩

theorem walkDates_length (date : MonthYear) (n : ℕ) :
    (walkDates date n).length = n := by
  induction n generalizing date with
  | zero => rfl
  | succ n ih => simp [walkDates, ih]

theorem walkDates_lt (date : MonthYear) (n : ℕ) :
    ∀ d ∈ walkDates date n, MonthYear.lt d date := by
  induction n generalizing date with
  | zero => simp [walkDates]
  | succ n ih =>
    intro d hd
    simp only [walkDates, List.mem_cons] at hd
    rcases hd with rfl | hd
    · exact MonthYear.previous_lt date
    · exact MonthYear.lt_trans (ih date.previous d hd) (MonthYear.previous_lt date)

theorem walkDates_chain (date : MonthYear) (n : ℕ) :
    List.Chain' (fun x y => MonthYear.lt y x) (walkDates date n) := by
  induction n generalizing date with
  | zero => simp [walkDates]
  | succ n ih =>
    rw [walkDates]
    refine List.chain'_cons'.mpr ⟨fun y hy => ?_, ih date.previous⟩
    exact walkDates_lt date.previous n y (List.mem_of_mem_head? hy)

theorem walkRecords_map_date (hist : AccountHistory) (date : MonthYear) (n : ℕ) :
    (walkRecords hist date n).map (·.date) =
      (walkDates date n).filter fun d => (getServiceMonthAccural hist d).isSome := by
  induction n generalizing date with
  | zero => simp [walkRecords, walkDates]
  | succ n ih =>
    have ih2 := ih date.previous
    simp only [walkRecords, walkDates, List.filterMap_cons, List.filter_cons] at *
    cases h : getServiceMonthAccural hist date.previous with
    | none => simpa [h] using ih2
    | some a => simpa [h] using ih2

theorem walkRecords_chain (hist : AccountHistory) (date : MonthYear) (n : ℕ) :
    List.Chain' (fun x y : ReaccuralMonthRec => MonthYear.lt y.date x.date)
      (walkRecords hist date n) := by
  haveI : IsTrans MonthYear (fun x y => MonthYear.lt y x) :=
    ⟨fun _ _ _ h1 h2 => MonthYear.lt_trans h2 h1⟩
  have h1 : List.Chain' (fun x y => MonthYear.lt y x)
      ((walkRecords hist date n).map (·.date)) := by
    rw [walkRecords_map_date]
    exact (walkDates_chain date n).sublist (List.filter_sublist _)
  exact (List.chain'_map (fun r : ReaccuralMonthRec => r.date)).mp h1

theorem walkRecords_mem (hist : AccountHistory) (date : MonthYear) (n : ℕ)
    (r : ReaccuralMonthRec) (h : r ∈ walkRecords hist date n) :
    ∃ a, getServiceMonthAccural hist r.date = some a ∧ r.sum = quantize2 a := by
  simp only [walkRecords, List.mem_filterMap] at h
  obtain ⟨d, _, hf⟩ := h
  obtain ⟨a, ha, hr⟩ := Option.map_eq_some'.mp hf
  exact ⟨a, by rw [← hr, ha], by rw [← hr]⟩

theorem walkRecords_length_le (hist : AccountHistory) (date : MonthYear) (n : ℕ) :
    (walkRecords hist date n).length ≤ n := by
  calc (walkRecords hist date n).length ≤ (walkDates date n).length :=
        List.length_filterMap_le _ _
    _ = n := walkDates_length date n

theorem sumAmounts_cons (r : ReaccuralMonthRec) (l : List ReaccuralMonthRec) :
    sumAmounts (r :: l) = r.sum + sumAmounts l := by
  simp [sumAmounts]

theorem sumAmounts_reverse (l : List ReaccuralMonthRec) :
    sumAmounts l.reverse = sumAmounts l := by
  simp [sumAmounts, List.map_reverse, List.sum_reverse]

theorem decomposeToZeroAux_spec (hist : AccountHistory) :
    ∀ (fuel : ℕ) (date : MonthYear) (fsum : ℚ)
      (acc out : List ReaccuralMonthRec),
      decomposeToZeroAux hist fuel date fsum acc = some out →
      ∃ n : ℕ, 0 < n ∧ n ≤ fuel ∧
        out = acc ++ walkRecords hist date n ∧
        walkRecords hist date n ≠ [] ∧
        fsum + sumAmounts (walkRecords hist date n) = 0 ∧
        (∀ k : ℕ, 0 < k → k < (walkRecords hist date n).length →
          fsum + sumAmounts ((walkRecords hist date n).take k) ≠ 0) := by
  intro fuel
  induction fuel with
  | zero =>
    intro date fsum acc out h
    exact absurd h (by simp [decomposeToZeroAux])
  | succ fuel ih =>
    intro date fsum acc out h
    cases hl : getServiceMonthAccural hist date.previous with
    | none =>
      rw [decomposeToZeroAux, hl] at h
      obtain ⟨n, hn0, hnf, hout, hne, hsum, hmin⟩ :=
        ih date.previous fsum acc out h
      have heq : walkRecords hist date (n + 1) = walkRecords hist date.previous n := by
        simp [walkRecords, walkDates, List.filterMap_cons, hl]
      exact ⟨n + 1, by omega, by omega, by rw [heq]; exact hout, by rw [heq]; exact hne,
        by rw [heq]; exact hsum, by rw [heq]; exact hmin⟩
    | some a =>
      simp only [decomposeToZeroAux, hl] at h
      have hcons : ∀ m : ℕ, walkRecords hist date (m + 1) =
          ⟨date.previous, quantize2 a⟩ :: walkRecords hist date.previous m := by
        intro m
        simp [walkRecords, walkDates, List.filterMap_cons, hl]
      by_cases hz : fsum + quantize2 a = 0
      · rw [if_pos hz] at h
        refine ⟨1, by omega, by omega, ?_, ?_, ?_, ?_⟩
        · rw [hcons 0]
          simp only [walkRecords, walkDates, List.filterMap_nil]
          exact (Option.some.inj h).symm
        · rw [hcons 0]
          simp
        · rw [hcons 0]
          simpa [walkRecords, walkDates, sumAmounts_cons, sumAmounts] using hz
        · intro k hk0 hk1
          rw [hcons 0] at hk1
          simp only [walkRecords, walkDates, List.filterMap_nil, List.length_cons,
            List.length_nil] at hk1
          omega
      · rw [if_neg hz] at h
        obtain ⟨n, hn0, hnf, hout, hne, hsum, hmin⟩ :=
          ih date.previous (fsum + quantize2 a)
            (acc ++ [⟨date.previous, quantize2 a⟩]) out h
        refine ⟨n + 1, by omega, by omega, ?_, ?_, ?_, ?_⟩
        · rw [hcons n, hout]
          simp
        · rw [hcons n]
          simp
        · rw [hcons n, sumAmounts_cons]
          linarith [hsum]
        · intro k hk0 hk1
          rw [hcons n] at hk1 ⊢
          simp only [List.length_cons] at hk1
          obtain ⟨j, rfl⟩ : ∃ j, k = j + 1 := ⟨k - 1, by omega⟩
          rw [List.take_succ_cons, sumAmounts_cons]
          show fsum + (quantize2 a +
            sumAmounts (List.take j (walkRecords hist date.previous n))) ≠ 0
          rcases Nat.eq_zero_or_pos j with rfl | hj
          · simpa [sumAmounts] using hz
          · have hne2 := hmin j hj (by omega)
            intro hcontra
            exact hne2 (by linarith)

/-- The synthetic history of the C1 test scenario: the three months before
04.2023 carry accruals 10, 10 and -20. -/
def hist3 : AccountHistory := fun d =>
  if d = ⟨3, 2023⟩ then some ⟨10, 0, 0, 0⟩
  else if d = ⟨2, 2023⟩ then some ⟨10, 0, 0, 0⟩
  else if d = ⟨1, 2023⟩ then some ⟨-20, 0, 0, 0⟩
  else none

/-- A history whose only accrual row (+5, matching a -5 reaccrual) lies 37
months before 01.2030, one month beyond the lookback bound; the 36 empty
months each consume one iteration, so decomposition fails. -/
def histGap : AccountHistory := fun d =>
  if d = ⟨12, 2026⟩ then some ⟨5, 0, 0, 0⟩ else none

/-- C1: whenever algorithm A (`Reaccural.try_decompose_to_zero`) succeeds,
it has walked backward month by month for some `n ≤ 36` iterations
(months without an accrual row also consume iterations), produced one
record per visited month that has an accrual row — in chronological,
oldest-first order, each holding that month's 2-decimal-quantized
accrual — such that the reaccrual total plus the produced amounts is
exactly zero, stopping at the first visited row where the running sum
vanishes.  On the [10, 10, -20] history with reaccrual total 0 at
04.2023 it returns exactly those three months in chronological order, and
on the history whose only row lies 37 months back it fails. -/
theorem claim_C1_decompose_to_zero :
    (∀ (hist : AccountHistory) (date : MonthYear) (total : ℚ)
        (rec : List ReaccuralMonthRec),
      tryDecomposeToZero hist date total = some rec →
      rec ≠ [] ∧
      rec.length ≤ MAX_DEPTH ∧
      total + sumAmounts rec = 0 ∧
      (∀ r ∈ rec, ∃ a, getServiceMonthAccural hist r.date = some a ∧
        r.sum = quantize2 a) ∧
      List.Chain' (fun x y => MonthYear.lt x.date y.date) rec ∧
      (∃ n ≤ MAX_DEPTH, rec.reverse = walkRecords hist date n) ∧
      (∀ k : ℕ, 0 < k → k < rec.length →
        total + sumAmounts (rec.reverse.take k) ≠ 0)) ∧
    tryDecomposeToZero hist3 ⟨4, 2023⟩ 0 =
      some [⟨⟨1, 2023⟩, -20⟩, ⟨⟨2, 2023⟩, 10⟩, ⟨⟨3, 2023⟩, 10⟩] ∧
    tryDecomposeToZero histGap ⟨1, 2030⟩ (-5) = none := by
  refine ⟨?_, by decide, by decide⟩
  intro hist date total rec h
  obtain ⟨out, hout, hrec⟩ := Option.map_eq_some'.mp h
  obtain ⟨n, hn0, hn36, houtw, hne, hsum, hmin⟩ :=
    decomposeToZeroAux_spec hist MAX_DEPTH date total [] out hout
  rw [List.nil_append] at houtw
  subst houtw
  subst hrec
  have hrev : (walkRecords hist date n).reverse.reverse = walkRecords hist date n :=
    List.reverse_reverse _
  refine ⟨by simpa using hne, ?_, ?_, ?_, ?_, ⟨n, hn36, hrev⟩, ?_⟩
  · rw [List.length_reverse]
    exact le_trans (walkRecords_length_le hist date n) hn36
  · rw [sumAmounts_reverse]
    exact hsum
  · intro r hr
    exact walkRecords_mem hist date n r (List.mem_reverse.mp hr)
  · exact List.chain'_reverse.mpr (walkRecords_chain hist date n)
  · intro k hk0 hk1
    rw [List.length_reverse] at hk1
    rw [hrev]
    exact hmin k hk0 hk1

/-- Witness for C1: the general decomposition properties applied to the
concrete [10, 10, -20] scenario. -/
theorem claim_C1_witness :
    ([⟨⟨1, 2023⟩, -20⟩, ⟨⟨2, 2023⟩, 10⟩, ⟨⟨3, 2023⟩, 10⟩] :
      List ReaccuralMonthRec) ≠ [] ∧
    (0 : ℚ) + sumAmounts
      [⟨⟨1, 2023⟩, -20⟩, ⟨⟨2, 2023⟩, 10⟩, ⟨⟨3, 2023⟩, 10⟩] = 0 := by
  have h := claim_C1_decompose_to_zero
  exact ⟨(h.1 hist3 ⟨4, 2023⟩ 0 _ h.2.1).1, (h.1 hist3 ⟨4, 2023⟩ 0 _ h.2.1).2.2.1⟩

@[simp] theorem setField_length (row : RowFields) (i : ℕ) (v : Option FieldVal) :
    (setField row i v).length = row.length :=
  List.length_set ..

@[simp] theorem baseResultRow_length (date : MonthYear) (account address : String)
    (price : ℚ) : (baseResultRow date account address price).length = 47 := by
  simp [baseResultRow, setField_length]

@[simp] theorem getField_setField (row : RowFields) (i j : ℕ) (v : Option FieldVal) :
    getField (setField row i v) j =
      if i = j then (if i < row.length then v else getField row j)
      else getField row j := by
  unfold getField setField
  rw [List.getD, List.getD, List.get?_eq_getElem?, List.get?_eq_getElem?,
    List.getElem?_set]
  by_cases hij : i = j
  · subst hij
    by_cases hlen : i < row.length
    · simp [hlen]
    · simp [hlen, List.getElem?_eq_none (Nat.le_of_not_lt hlen)]
  · simp [hij]

theorem reaccuralInit_fallback (hist : AccountHistory) (date : MonthYear)
    (rsum : ℚ) (hA : tryDecomposeToZero hist date (quantize2 rsum) = none)
    (hB : tryDecomposeToPrev hist date (quantize2 rsum) = none) :
    reaccuralInit hist date rsum = ⟨[⟨date, rsum⟩], false, quantize2 rsum⟩ := by
  simp only [reaccuralInit, hA]
  cases hnext : getServiceMonthAccural hist date.next with
  | none => simp [hnext, hB]
  | some v =>
    by_cases hv : v = 0
    · simp [hnext, hv, hB]
    · simp [hnext, hv]

theorem gvsReaccuralRow_length (buildings : BuildingsFile) (installMap : InstallMap)
    (date : MonthYear) (account address : String) (gvs : GvsDetailsRecord)
    (reaccuralDate : MonthYear) (reaccuralSum : ℚ) (rtype : ReaccuralType)
    (service recTypeName : String) (r : RowFields)
    (h : gvsReaccuralRow buildings installMap date account address gvs
      reaccuralDate reaccuralSum rtype service recTypeName = some r) :
    r.length = 47 := by
  unfold gvsReaccuralRow at h
  cases htar : getTariff buildings address date true with
  | none => rw [htar] at h; simp at h
  | some price =>
    rw [htar] at h
    simp only [] at h
    by_cases hp : price = 0
    · rw [if_pos hp] at h; simp at h
    · rw [if_neg hp] at h
      have hr : r = _ := (Option.some.inj h).symm
      subst hr
      cases rtype <;> split_ifs <;>
        simp [setField_length, baseResultRow_length]

/-- C6: when neither decomposition algorithm converges within the 36-month
lookback, `Reaccural.__init__` leaves exactly one record, dated at the
reaccrual month itself and carrying the raw original reaccrual sum, with
`valid = false`; and `_process_gvs_reaccural` then annotates every row it
produces from such an invalid decomposition with the human-readable
could-not-decompose marker in field 38. -/
theorem claim_C6_reaccural_fallback :
    (∀ (hist : AccountHistory) (date : MonthYear) (rsum : ℚ),
      tryDecomposeToZero hist date (quantize2 rsum) = none →
      tryDecomposeToPrev hist date (quantize2 rsum) = none →
      reaccuralInit hist date rsum = ⟨[⟨date, rsum⟩], false, quantize2 rsum⟩) ∧
    (∀ (buildings : BuildingsFile) (installMap : InstallMap)
        (hist : AccountHistory) (date : MonthYear) (account address : String)
        (gvsDetailsRows prevGvsRows : List GvsDetailsRecord)
        (service recTypeName : String) (rsum : ℚ) (rows : List RowFields),
      getServiceMonthReaccural hist date = some rsum →
      rsum ≠ 0 →
      tryDecomposeToZero hist date (quantize2 rsum) = none →
      tryDecomposeToPrev hist date (quantize2 rsum) = none →
      processGvsReaccuralRows buildings installMap hist date account address
        gvsDetailsRows prevGvsRows service recTypeName = some rows →
      rows.length = 1 ∧
      ∀ r ∈ rows, getField r 38 = some (.s couldNotDecomposeMarker)) := by
  refine ⟨reaccuralInit_fallback, ?_⟩
  intro buildings installMap hist date account address gvsDetailsRows prevGvsRows
    service recTypeName rsum rows hre hnz hA hB hp
  simp only [processGvsReaccuralRows, hre, if_neg hnz,
    reaccuralInit_fallback hist date rsum hA hB, List.mapM_cons, List.mapM_nil] at hp
  cases hrow : gvsReaccuralRow buildings installMap date account address
      (gvsDetailsRows.headD dummyGvs) date rsum (initType prevGvsRows) service
      recTypeName with
  | none => rw [hrow] at hp; simp at hp
  | some r =>
    rw [hrow] at hp
    simp only [Option.bind_eq_bind, Option.pure_def, Option.some_bind,
      Option.map_some', Option.some.injEq, Bool.false_eq_true, if_false,
      List.map_cons, List.map_nil] at hp
    subst hp
    have hlen := gvsReaccuralRow_length buildings installMap date account address
      (gvsDetailsRows.headD dummyGvs) date rsum (initType prevGvsRows) service
      recTypeName r hrow
    refine ⟨by simp, ?_⟩
    intro x hx
    have hxs : x = setField r 38 (some (.s couldNotDecomposeMarker)) := by
      simpa using hx
    subst hxs
    rw [getField_setField]
    simp [hlen]

/-- A history whose only row is the reaccrual month itself (05.2024, with
reaccrual 7 and no accruals anywhere), so neither decomposition algorithm
can converge. -/
def histC6 : AccountHistory := fun d =>
  if d = ⟨5, 2024⟩ then some ⟨0, 7, 0, 0⟩ else none

/-- Witness for C6: on `histC6` the decomposition falls back to one
invalid record at the reaccrual month with the original sum, and the
caller emits exactly one row carrying the field-38 marker. -/
theorem claim_C6_witness :
    reaccuralInit histC6 ⟨5, 2024⟩ 7 =
      ⟨[⟨⟨5, 2024⟩, 7⟩], false, quantize2 7⟩ ∧
    ∃ rows, processGvsReaccuralRows buildingsW emptyInstallMap histC6 ⟨5, 2024⟩
        "acct" "spec-addr" [] [] "svc" "GVS_REACCURAL" = some rows ∧
      rows.length = 1 ∧
      ∀ r ∈ rows, getField r 38 = some (.s couldNotDecomposeMarker) := by
  have hA : tryDecomposeToZero histC6 ⟨5, 2024⟩ (quantize2 7) = none := by decide
  have hB : tryDecomposeToPrev histC6 ⟨5, 2024⟩ (quantize2 7) = none := by decide
  refine ⟨claim_C6_reaccural_fallback.1 histC6 ⟨5, 2024⟩ 7 hA hB, ?_⟩
  have hsome : (processGvsReaccuralRows buildingsW emptyInstallMap histC6 ⟨5, 2024⟩
      "acct" "spec-addr" [] [] "svc" "GVS_REACCURAL").isSome = true := by decide
  refine ⟨_, (Option.some_get hsome).symm, ?_⟩
  exact claim_C6_reaccural_fallback.2 buildingsW emptyInstallMap histC6 ⟨5, 2024⟩
    "acct" "spec-addr" [] [] "svc" "GVS_REACCURAL" 7 _ (by decide) (by decide)
    hA hB (Option.some_get hsome).symm

/-- The sum of the quantized reaccural rows of `fuel` consecutive months
starting at `m`. -/
def quantizedReaccSum (reacc : ℤ → Option ℚ) (m : ℤ) : ℕ → ℚ
  | 0 => 0
  | fuel + 1 => quantize2 ((reacc m).getD 0) + quantizedReaccSum reacc (m + 1) fuel

theorem closingRows_head (reacc : ℤ → Option ℚ) (yc : ℚ) (m : ℤ) (lastTfi : ℚ) :
    ∃ rest, positiveCorrectionClosingRows reacc yc m lastTfi =
      ⟨false, m + 1, none, some (quantize2 yc), some 0, none⟩ :: rest := by
  unfold positiveCorrectionClosingRows
  cases hnx : reacc (m + 1) with
  | none => exact ⟨[], rfl⟩
  | some nxt =>
    simp only []
    split
    · exact ⟨[], rfl⟩
    · exact ⟨_, rfl⟩

theorem fiAux_reaches_closing (reacc : ℤ → Option ℚ) (cm : ℤ) (yc : ℚ) :
    ∀ (fuel : ℕ) (m : ℤ) (tcb tfi : ℚ),
      m ≤ cm → cm < m + (fuel : ℤ) →
      (∀ k : ℤ, m ≤ k → k ≤ cm → (reacc k).isSome) →
      ∃ l1 tfi2, futureInstallmentAux reacc cm yc fuel m tcb tfi =
        some (l1 ++ positiveCorrectionClosingRows reacc yc cm tfi2) := by
  intro fuel
  induction fuel with
  | zero =>
    intro m tcb tfi h1 h2 _
    exact absurd h2 (by push_cast; omega)
  | succ fuel ih =>
    intro m tcb tfi h1 h2 hdef
    obtain ⟨r0, hr0⟩ := Option.isSome_iff_exists.mp (hdef m le_rfl h1)
    by_cases hm : m = cm
    · subst hm
      refine ⟨[⟨false, m, none, some (tcb + quantize2 r0),
        some (tfi - quantize2 r0), none⟩], tfi - quantize2 r0, ?_⟩
      simp [futureInstallmentAux, hr0]
    · obtain ⟨l1, tfi2, haux⟩ := ih (m + 1) (tcb + quantize2 r0)
        (tfi - quantize2 r0) (by omega) (by push_cast at h2 ⊢; omega)
        (fun k hk1 hk2 => hdef k (by omega) hk2)
      refine ⟨⟨false, m, none, some (tcb + quantize2 r0),
        some (tfi - quantize2 r0), none⟩ :: l1, tfi2, ?_⟩
      simp [futureInstallmentAux, hr0, hm, haux]

theorem fiAux_open (reacc : ℤ → Option ℚ) (cm : ℤ) (yc : ℚ) :
    ∀ (fuel : ℕ) (m : ℤ) (tcb tfi : ℚ),
      (∀ k : ℤ, m ≤ k → k < m + (fuel : ℤ) + 1 → (reacc k).isSome ∧ k ≠ cm) →
      ∃ rows, futureInstallmentAux reacc cm yc (fuel + 1) m tcb tfi = some rows ∧
        rows.length = fuel + 1 ∧
        rows.getLast? = some ⟨false, m + fuel, none,
          some (tcb + quantizedReaccSum reacc m (fuel + 1)),
          some (tfi - quantizedReaccSum reacc m (fuel + 1)), none⟩ := by
  intro fuel
  induction fuel with
  | zero =>
    intro m tcb tfi hdef
    obtain ⟨hsome, hne⟩ := hdef m le_rfl (by push_cast; omega)
    obtain ⟨r0, hr0⟩ := Option.isSome_iff_exists.mp hsome
    refine ⟨[⟨false, m, none, some (tcb + quantize2 r0),
      some (tfi - quantize2 r0), none⟩], ?_, rfl, ?_⟩
    · simp [futureInstallmentAux, hr0, hne]
    · simp [quantizedReaccSum, hr0]
  | succ fuel ih =>
    intro m tcb tfi hdef
    obtain ⟨hsome, hne⟩ := hdef m le_rfl (by push_cast; omega)
    obtain ⟨r0, hr0⟩ := Option.isSome_iff_exists.mp hsome
    obtain ⟨rows, haux, hlen, hlast⟩ := ih (m + 1) (tcb + quantize2 r0)
      (tfi - quantize2 r0)
      (fun k h1 h2 => hdef k (by omega) (by push_cast at h2 ⊢; omega))
    have hS : quantizedReaccSum reacc m (fuel + 1 + 1) =
        quantize2 r0 + quantizedReaccSum reacc (m + 1) (fuel + 1) := by
      simp [quantizedReaccSum, hr0]
    refine ⟨⟨false, m, none, some (tcb + quantize2 r0),
      some (tfi - quantize2 r0), none⟩ :: rows, ?_, by simp [hlen], ?_⟩
    · rw [futureInstallmentAux]
      simp only [hr0, if_neg hne, haux, Option.map_some']
    · cases rows with
      | nil => simp at hlen
      | cons y ys =>
        rw [List.getLast?_cons_cons, hlast, hS, Option.some.injEq,
          PosCorrRow.mk.injEq]
        refine ⟨rfl, by push_cast; ring, rfl, by rw [add_assoc], ?_, rfl⟩
        rw [Option.some.injEq]
        ring

/-- C2: (i) when the positive-correction walk reaches the account's
closing month, an extra closing row dated the month after closure is
emitted, with the total-future-installment field reset to zero and the
total-closing-balance field equal to the full (quantized) year
correction; (ii) when the account was already closed in both years
(closing month 0), a single collapsed row carries the full year correction
as closing balance and a zero future installment; (iii) for an account
open all year (closing month -1) whose quantized monthly reaccruals over
the walk sum to the year correction, the final December row's
total-future-installment equals zero. -/
theorem claim_C2_positive_correction_walk :
    (∀ (reacc : ℤ → Option ℚ) (closingMonth osvMonth : ℤ) (yc : ℚ),
      0 < closingMonth → osvMonth < closingMonth → closingMonth ≤ 12 →
      (∀ k : ℤ, osvMonth ≤ k → k ≤ closingMonth → (reacc k).isSome) →
      ∃ l1 l2, addFutureInstallmentRecords reacc closingMonth osvMonth yc =
        some (l1 ++ ⟨false, closingMonth + 1, none, some (quantize2 yc),
          some 0, none⟩ :: l2)) ∧
    (∀ (reacc : ℤ → Option ℚ) (osvMonth : ℤ) (yc : ℚ),
      addFutureInstallmentRecords reacc 0 osvMonth yc =
        some [⟨false, osvMonth, none, some (quantize2 yc), some 0, none⟩]) ∧
    (∀ (reacc : ℤ → Option ℚ) (osvMonth : ℤ) (yc : ℚ),
      1 ≤ osvMonth → osvMonth ≤ 12 →
      (∀ k : ℤ, osvMonth ≤ k → k ≤ 12 → (reacc k).isSome) →
      quantizedReaccSum reacc osvMonth (13 - osvMonth).toNat = yc →
      ∃ rows, addFutureInstallmentRecords reacc (-1) osvMonth yc = some rows ∧
        rows ≠ [] ∧
        rows.getLast?.map (fun r => (r.corrMonth, r.totalFutureInstallment)) =
          some (12, some 0)) := by
  refine ⟨?_, ?_, ?_⟩
  · intro reacc cm osvMonth yc h0 hlt h12 hdef
    obtain ⟨r0, hr0⟩ := Option.isSome_iff_exists.mp (hdef osvMonth le_rfl (by omega))
    have hfuel : (((12 - osvMonth).toNat : ℕ) : ℤ) = 12 - osvMonth :=
      Int.toNat_of_nonneg (by omega)
    obtain ⟨l1, tfi2, haux⟩ := fiAux_reaches_closing reacc cm yc
      (12 - osvMonth).toNat (osvMonth + 1) (quantize2 r0) (yc - quantize2 r0)
      (by omega) (by rw [hfuel]; omega)
      (fun k hk1 hk2 => hdef k (by omega) hk2)
    obtain ⟨rest, hrest⟩ := closingRows_head reacc yc cm tfi2
    rw [hrest] at haux
    simp only [addFutureInstallmentRecords, if_neg (show ¬cm = -1 by omega),
      if_neg (show ¬cm = 0 by omega)]
    rw [if_neg (by simp; omega), if_neg (show ¬12 < osvMonth by omega)]
    simp only [hr0]
    rw [if_neg (by omega), haux, Option.map_some']
    exact ⟨⟨false, osvMonth, some (yc - quantize2 r0), some (quantize2 r0),
      some (yc - quantize2 r0), none⟩ :: l1, rest, by simp⟩
  · intro reacc osvMonth yc
    simp [addFutureInstallmentRecords]
  · intro reacc osvMonth yc h1 h12 hdef hsum
    obtain ⟨r0, hr0⟩ := Option.isSome_iff_exists.mp (hdef osvMonth le_rfl h12)
    simp only [addFutureInstallmentRecords, if_pos rfl, Bool.false_eq_true,
      if_false]
    rw [if_neg (show ¬12 < osvMonth by omega)]
    simp only [hr0]
    rw [if_neg (show ¬osvMonth = -1 by omega)]
    by_cases h12e : osvMonth = 12
    · subst h12e
      have hz : (12 - (12 : ℤ)).toNat = 0 := by norm_num
      rw [hz]
      refine ⟨_, rfl, by simp [futureInstallmentAux], ?_⟩
      have hs1 : (13 - (12 : ℤ)).toNat = 1 := by norm_num
      rw [hs1] at hsum
      simp only [quantizedReaccSum, hr0] at hsum
      simp [futureInstallmentAux]
      simp only [Option.getD_some] at hsum
      linarith
    · have hfuel : (12 - osvMonth).toNat = (11 - osvMonth).toNat + 1 := by omega
      rw [hfuel]
      have hfuel2 : (((11 - osvMonth).toNat : ℕ) : ℤ) = 11 - osvMonth :=
        Int.toNat_of_nonneg (by omega)
      obtain ⟨rows, haux, hlen, hlast⟩ := fiAux_open reacc (-1) yc
        (11 - osvMonth).toNat (osvMonth + 1) (quantize2 r0) (yc - quantize2 r0)
        (fun k hk1 hk2 => ⟨hdef k (by omega) (by rw [hfuel2] at hk2; omega),
          by omega⟩)
      rw [haux, Option.map_some']
      refine ⟨_, rfl, by simp, ?_⟩
      have h13 : (13 - osvMonth).toNat = (11 - osvMonth).toNat + 1 + 1 := by omega
      rw [h13] at hsum
      have hdecomp : quantizedReaccSum reacc osvMonth ((11 - osvMonth).toNat + 1 + 1) =
          quantize2 r0 + quantizedReaccSum reacc (osvMonth + 1)
            ((11 - osvMonth).toNat + 1) := by
        rw [quantizedReaccSum, hr0]
        simp
      rw [hdecomp] at hsum
      cases rows with
      | nil => simp at hlen
      | cons y ys =>
        rw [List.getLast?_cons_cons, hlast, Option.map_some']
        rw [Option.some.injEq, Prod.mk.injEq]
        constructor
        · show osvMonth + 1 + ((11 - osvMonth).toNat : ℤ) = 12
          rw [hfuel2]
          ring
        · rw [Option.some.injEq]
          linarith

/-- A synthetic reaccural table: months 3..6 of the current year each
carry a reaccural of 2. -/
def reaccC : ℤ → Option ℚ := fun m => if 3 ≤ m ∧ m ≤ 6 then some 2 else none

/-- A synthetic reaccural table for an account open all year: months 11
and 12 each carry a reaccural of 5 (their quantized sum, 10, is the year
correction). -/
def reaccOpen : ℤ → Option ℚ := fun m => if 11 ≤ m ∧ m ≤ 12 then some 5 else none

/-- Witness for C2: a walk from month 3 with closing month 5 emits the
closing row dated month 6; closing month 0 yields the single collapsed
row; and the open-account walk from month 11 with year correction 10 ends
with a December row whose total future installment is zero. -/
theorem claim_C2_witness :
    (∃ l1 l2, addFutureInstallmentRecords reaccC 5 3 20 =
      some (l1 ++ ⟨false, 5 + 1, none, some (quantize2 20), some 0, none⟩ :: l2)) ∧
    addFutureInstallmentRecords reaccC 0 7 20 =
      some [⟨false, 7, none, some (quantize2 20), some 0, none⟩] ∧
    (∃ rows, addFutureInstallmentRecords reaccOpen (-1) 11 10 = some rows ∧
      rows ≠ [] ∧
      rows.getLast?.map (fun r => (r.corrMonth, r.totalFutureInstallment)) =
        some (12, some 0)) := by
  refine ⟨?_, claim_C2_positive_correction_walk.2.1 reaccC 7 20, ?_⟩
  · exact claim_C2_positive_correction_walk.1 reaccC 5 3 20 (by decide) (by decide)
      (by decide) (fun k h1 h2 => by interval_cases k <;> decide)
  · exact claim_C2_positive_correction_walk.2.2 reaccOpen 11 10 (by decide)
      (by decide) (fun k h1 h2 => by interval_cases k <;> decide) (by decide)

@[simp] theorem getField_replicate_none (n i : ℕ) :
    getField (List.replicate n (none : Option FieldVal)) i = none := by
  unfold getField
  rw [List.getD, List.get?_eq_getElem?, List.getElem?_replicate]
  split <;> rfl

theorem gvsSingleResultRow_length (buildings : BuildingsFile)
    (installMap : InstallMap) (date : MonthYear) (account address : String)
    (gvsSum : ℚ) (hist : AccountHistory) (gvs : GvsDetailsRecord)
    (service : String) (pr : RowFields × ℚ)
    (h : gvsSingleResultRow buildings installMap date account address gvsSum hist
      gvs service = some pr) : pr.1.length = 47 := by
  unfold gvsSingleResultRow at h
  cases htar : getTariff buildings address date true with
  | none => rw [htar] at h; simp at h
  | some price =>
    rw [htar] at h
    simp only [] at h
    by_cases hp : price = 0
    · rw [if_pos hp] at h; simp at h
    · rw [if_neg hp] at h
      have hpr : pr = _ := (Option.some.inj h).symm
      subst hpr
      split_ifs <;> simp [setField_length, baseResultRow_length]

theorem gvsSingleResultRow_f42_f45 (buildings : BuildingsFile)
    (installMap : InstallMap) (date : MonthYear) (account address : String)
    (gvsSum : ℚ) (hist : AccountHistory) (gvs : GvsDetailsRecord)
    (service : String) (pr : RowFields × ℚ)
    (h : gvsSingleResultRow buildings installMap date account address gvsSum hist
      gvs service = some pr)
    (hpay : (getServiceMonthPayment hist date).getD 0 = 0) :
    getField pr.1 42 = none ∧
    getField pr.1 45 =
      some (.q ((getServiceMonthClosingBalance hist date).getD 0)) := by
  unfold gvsSingleResultRow at h
  cases htar : getTariff buildings address date true with
  | none => rw [htar] at h; simp at h
  | some price =>
    rw [htar] at h
    simp only [] at h
    by_cases hp : price = 0
    · rw [if_pos hp] at h; simp at h
    · rw [if_neg hp] at h
      have hpr : pr = _ := (Option.some.inj h).symm
      subst hpr
      simp only [hpay, ne_eq, not_true_eq_false, ite_false, if_neg]
      constructor <;>
        split_ifs <;>
          (simp [getField_setField, setField_length, baseResultRow_length,
            baseResultRow]
           try decide)

theorem getField_foldl_clear (l : List ℕ) (row : RowFields) (i : ℕ) :
    getField (l.foldl (fun r j => setField r (23 + j) none) row) i =
      if ∃ j ∈ l, 23 + j = i then
        (if i < row.length then none else getField row i)
      else getField row i := by
  induction l generalizing row with
  | nil => simp
  | cons a l ih =>
    rw [List.foldl_cons, ih]
    by_cases hai : 23 + a = i <;> by_cases hl : ∃ j ∈ l, 23 + j = i <;>
      by_cases hlen : i < row.length <;>
        simp [hai, hl, hlen, getField_setField, setField_length,
          List.mem_cons]

theorem getField_clearFinancialFields (row : RowFields) (i : ℕ)
    (h1 : 23 ≤ i) (h2 : i ≤ 45) (hlen : i < row.length) :
    getField (clearFinancialFields row) i = none := by
  rw [clearFinancialFields, getField_foldl_clear,
    if_pos ⟨i - 23, by simp [List.mem_range]; omega⟩, if_pos hlen]

theorem getField_clearFinancialFields_low (row : RowFields) (i : ℕ)
    (h : i < 23) :
    getField (clearFinancialFields row) i = getField row i := by
  rw [clearFinancialFields, getField_foldl_clear, if_neg]
  rintro ⟨j, _, hj⟩
  omega

/-- C7 (amended): for every account and month that passes the nonzero-OSV
guard and has exactly two GVS meter-detail records, exactly two rows are
produced; the first carries the removal-pending flag and the second the
installation flag in field 20 provided the respective record's current
meter reading is non-null; the second row's financial fields 23..45 are
null and the process-wide install-date dict is updated at the account key
of the second record with its current-metric date. -/
theorem claim_C7_two_meter_rows (buildings : BuildingsFile)
    (installMap : InstallMap) (date : MonthYear) (account address : String)
    (heating gvsSum reaccural payment : ℚ) (hist : AccountHistory)
    (g1 g2 : GvsDetailsRecord) (service : String)
    (out : List RowFields × InstallMap)
    (hguard : ¬(heating = 0 ∧ gvsSum = 0 ∧ reaccural = 0 ∧ payment = 0))
    (hp : processGvsRows buildings installMap date account address heating
      gvsSum reaccural payment hist [g1, g2] service = some out) :
    ∃ r1 r2, out.1 = [r1, r2] ∧
      (g1.metric_current.isSome →
        getField r1 20 = some (.s "При снятии прибора")) ∧
      (g2.metric_current.isSome →
        getField r2 20 = some (.s "При установке")) ∧
      (∀ i : ℕ, 23 ≤ i → i ≤ 45 → getField r2 i = none) ∧
      out.2 g2.account = some g2.metric_date_current := by
  unfold processGvsRows at hp
  rw [if_neg hguard] at hp
  have hlen2 : ¬(2 < ([g1, g2] : List GvsDetailsRecord).length) := by simp
  rw [if_neg hlen2] at hp
  simp only [] at hp
  cases h1 : gvsMultipleResultFirstRow buildings installMap date account address
      gvsSum hist g1 service with
  | none => rw [h1] at hp; simp at hp
  | some r1 =>
    cases h2 : gvsMultipleResultSecondRow buildings installMap date account
        address gvsSum hist g2 service with
    | none => rw [h1, h2] at hp; simp at hp
    | some r2m =>
      rw [h1, h2] at hp
      simp only [Option.some.injEq] at hp
      subst hp
      obtain ⟨p1, hp1, hf1⟩ :=
        Option.map_eq_some'.mp (h1 : _ = some r1)
      obtain ⟨p2, hp2, hf2⟩ :=
        Option.map_eq_some'.mp (h2 : _ = some r2m)
      have hl1 := gvsSingleResultRow_length buildings installMap date account
        address gvsSum hist g1 service p1 hp1
      have hl2 := gvsSingleResultRow_length buildings installMap date account
        address gvsSum hist g2 service p2 hp2
      refine ⟨r1, r2m.1, rfl, ?_, ?_, ?_, ?_⟩
      · intro hm
        rw [← hf1]
        simp [hm, getField_setField, hl1]
      · intro hm
        rw [← hf2]
        simp only [hm, ite_true, if_pos]
        rw [getField_clearFinancialFields_low _ 20 (by omega)]
        simp [getField_setField, setField_length, hl2]
      · intro i hi1 hi2
        rw [← hf2]
        simp only []
        split_ifs <;>
          exact getField_clearFinancialFields _ i hi1 hi2
            (by simp [setField_length, hl2]; omega)
      · rw [← hf2]
        simp [installMapSet]

/-- An account history with no rows at all. -/
def histNone : AccountHistory := fun _ => none

/-- Two meter-detail records for the same account with different meter
numbers but no current meter reading (an empty reading cell). -/
def gMeterA : GvsDetailsRecord :=
  ⟨"acc", none, some "c1", some "111", none, none, none, none, none⟩

/-- Companion record of `gMeterA` with the other meter number. -/
def gMeterB : GvsDetailsRecord :=
  ⟨"acc", none, some "c2", some "222", none, none, none, none, none⟩

/-- Counterexample to C7 as stated: with two meter-detail records whose
current meter readings are null, the two output rows are produced but
field 20 of both rows stays null — neither the removal-pending flag nor
the installation flag is written, because both flags are guarded by
`if gvs.metric_current is not None` in the source. -/
theorem claim_C7_counterexample :
    (processGvsRows buildingsW emptyInstallMap ⟨5, 2024⟩ "acc" "spec-addr"
        1 0 0 0 histNone [gMeterA, gMeterB] "svc").map
      (fun out => out.1.map fun r => getField r 20) = some [none, none] := by
  decide

/-- Two meter-detail records with different meter numbers and present
current readings: a mid-period meter replacement. -/
def gMetA : GvsDetailsRecord :=
  ⟨"acc", none, some "c1", some "111", some "10.05.2024", some 25, some 1,
    none, none⟩

/-- Companion record of `gMetA`: the newly installed meter. -/
def gMetB : GvsDetailsRecord :=
  ⟨"acc", none, some "c2", some "222", some "12.05.2024", some 3, some 1,
    none, none⟩

/-- Witness for C7 (amended) at a concrete replacement scenario with both
readings present. -/
theorem claim_C7_witness :
    ∃ out, processGvsRows buildingsW emptyInstallMap ⟨5, 2024⟩ "acc" "spec-addr"
        1 0 0 0 histNone [gMetA, gMetB] "svc" = some out ∧
      ∃ r1 r2, out.1 = [r1, r2] ∧
        getField r1 20 = some (.s "При снятии прибора") ∧
        getField r2 20 = some (.s "При установке") ∧
        (∀ i : ℕ, 23 ≤ i → i ≤ 45 → getField r2 i = none) ∧
        out.2 gMetB.account = some gMetB.metric_date_current := by
  have hsome : (processGvsRows buildingsW emptyInstallMap ⟨5, 2024⟩ "acc"
      "spec-addr" 1 0 0 0 histNone [gMetA, gMetB] "svc").isSome = true := by
    decide
  refine ⟨_, (Option.some_get hsome).symm, ?_⟩
  obtain ⟨r1, r2, hout, hf1, hf2, hclear, hmap⟩ :=
    claim_C7_two_meter_rows buildingsW emptyInstallMap ⟨5, 2024⟩ "acc"
      "spec-addr" 1 0 0 0 histNone gMetA gMetB "svc" _ (by decide)
      (Option.some_get hsome).symm
  exact ⟨r1, r2, hout, hf1 (by decide), hf2 (by decide), hclear, hmap⟩

/-- C8 (amended): the zero-data filter lives in the GVS-elevated row
constructor: for every GVS-elevated row whose service accrual, payment and
closing balance are all zero (or missing), the constructor signals
`ZeroDataResultRow` and `_process_gvs_elevated` writes nothing. -/
theorem claim_C8_elevated_zero_suppression (buildings : BuildingsFile)
    (installMap : InstallMap) (date : MonthYear) (account address : String)
    (gvsSum : ℚ) (hist : AccountHistory) (g : GvsDetailsRecord)
    (rest : List GvsDetailsRecord) (service : String) (price : ℚ)
    (htar : getTariff buildings address date true = some price)
    (hpz : ¬price = 0)
    (haccr : (getServiceMonthAccural hist date).getD 0 = 0)
    (hpay : (getServiceMonthPayment hist date).getD 0 = 0)
    (hclose : (getServiceMonthClosingBalance hist date).getD 0 = 0) :
    gvsElevatedResultRow buildings installMap date account address gvsSum hist
      g service = some none ∧
    processGvsElevatedRows buildings installMap date account address gvsSum hist
      (g :: rest) service = some [] := by
  have hs : ∃ row, gvsSingleResultRow buildings installMap date account address
      gvsSum hist g service = some (row, price) := by
    unfold gvsSingleResultRow
    rw [htar]
    simp only []
    rw [if_neg hpz]
    exact ⟨_, rfl⟩
  obtain ⟨row, hs⟩ := hs
  have hl := gvsSingleResultRow_length buildings installMap date account address
    gvsSum hist g service (row, price) hs
  obtain ⟨h42, h45⟩ := gvsSingleResultRow_f42_f45 buildings installMap date
    account address gvsSum hist g service (row, price) hs hpay
  simp only [] at hl h42 h45
  have h1 : gvsElevatedResultRow buildings installMap date account address
      gvsSum hist g service = some none := by
    unfold gvsElevatedResultRow
    rw [hs, Option.map_some']
    simp only [haccr, hclose, getField_setField, setField_length,
      apply_ite (fun r : RowFields => getField r 42),
      apply_ite (fun r : RowFields => getField r 45),
      apply_ite (fun r : RowFields => List.length r),
      ite_self, hl, h42, h45, fieldTruthy]
    simp
  refine ⟨h1, ?_⟩
  unfold processGvsElevatedRows
  simp only []
  rw [h1]

/-- A meter-detail record with only the account filled (all other cells
empty). -/
def gPlain : GvsDetailsRecord :=
  ⟨"acc", none, none, none, none, none, none, none, none⟩

/-- Counterexample to C8 as stated: a plain GVS accrual row
(`GvsSingleResultRow`, written by `_process_gvs` without any zero-data
check) is emitted even though its accrual (field 36), payment (field 42)
and closing balance (field 45) are all zero — the zero-data filter exists
only in the GVS-elevated constructor, so this zero row is written. -/
theorem claim_C8_counterexample :
    (processGvsRows buildingsW emptyInstallMap ⟨5, 2024⟩ "acc" "spec-addr"
        1 0 0 0 histNone [gPlain] "svc").map
      (fun out => out.1.map fun r =>
        (getField r 36, getField r 42, getField r 45)) =
      some [(some (.q 0), none, some (.q 0))] := by
  decide

/-- Witness for C8 (amended) at a concrete all-zero elevated scenario. -/
theorem claim_C8_witness :
    gvsElevatedResultRow buildingsW emptyInstallMap ⟨5, 2024⟩ "acc" "spec-addr"
      0 histNone gPlain "svc" = some none ∧
    processGvsElevatedRows buildingsW emptyInstallMap ⟨5, 2024⟩ "acc"
      "spec-addr" 0 histNone [gPlain] "svc" = some [] :=
  claim_C8_elevated_zero_suppression buildingsW emptyInstallMap ⟨5, 2024⟩ "acc"
    "spec-addr" 0 histNone gPlain [] "svc" 10 (by decide) (by decide)
    (by decide) (by decide) (by decide)
